import Mathlib

/-!
Verification of the Simon firmware (src/Simon.c, src/buzzer.c, src/buzzer.h)
against its natural-language specification.

The development is a shallow embedding: hardware registers become record
fields, machine integers become `Nat` with explicit `% 2^w` where overflow
matters, interrupt-driven loops become explicit step functions, and the
physical environment (button pins, the free-running entropy counter) becomes
input traces `Nat → _`.  `src/Simon.c` holds two historical revisions of the
game separated by a marker; we embed both where the claims reference both
(they share `wait_buttons` and `buttons_count` verbatim).
-/

namespace Simon

/-! ## Buzzer scheduler (src/buzzer.c, src/buzzer.h)

State of the Timer1 buzzer scheduler.  Fields mirror the AVR registers the
module touches: `tccr1a`/`tccr1b` (mode configuration), `tcnt1` (the timer
counter), `ocr1a` (the compare/top value = the tone half-period in timer
ticks), `toie1` (the TOIE1 bit of TIMSK1: the overflow interrupt enable,
which is exactly `is_buzzer_working`), `tov1` (the pending-overflow flag of
TIFR1), `port1`/`port2` (PORTD bits 3 and 4 driving the two buzzer legs) and
`count` (the global `buzzer_count`, a `uint16_t`, so kept `< 65536` by every
operation of the module). -/
structure BuzzerState where
  tccr1a : Nat
  tccr1b : Nat
  tcnt1 : Nat
  ocr1a : Nat
  toie1 : Bool
  tov1 : Bool
  port1 : Bool
  port2 : Bool
  count : Nat
deriving DecidableEq

/-- Source buzzer.h: `is_buzzer_working()` returns `TIMSK1 & _BV(TOIE1)`. -/
def is_buzzer_working (s : BuzzerState) : Bool :=
  s.toie1

/-- Source buzzer.c `start_buzzer(tone, cnt, done_callback)`: when the buzzer
is idle it programs Fast PWM mode 15 (`TCCR1A = _BV(WGM11)|_BV(WGM10) = 3`,
`TCCR1B = _BV(WGM13)|_BV(WGM12)|_BV(CS10) = 25`), resets `TCNT1` to zero and
forces leg 1 low / leg 2 high; in every case it then disables the overflow
interrupt, sets `OCR1A = tone` and `buzzer_count = cnt` (both `uint16_t`),
clears the pending overflow flag (`sbi(TIFR1, TOV1)` is write-one-to-clear)
and re-enables the interrupt, so the final interrupt-enable bit is set.  The
installed callback is modelled separately (see `buzzer_isr`). -/
def start_buzzer (tone cnt : Nat) (s : BuzzerState) : BuzzerState :=
  let s1 :=
    if is_buzzer_working s then s
    else { s with tccr1a := 3, tccr1b := 25, tcnt1 := 0,
                  port1 := false, port2 := true }
  { s1 with toie1 := true, ocr1a := tone % 65536, count := cnt % 65536,
            tov1 := false }

/-- Source buzzer.c `stop_buzzer()`: disables the overflow interrupt and sets
both buzzer legs low. -/
def stop_buzzer (s : BuzzerState) : BuzzerState :=
  { s with toie1 := false, port1 := false, port2 := false }

/-- Source buzzer.c `ISR(TIMER1_OVF_vect)`: writing one to a PINx bit toggles
the corresponding PORTx bit on AVR, so the handler flips both buzzer legs;
it then stores `buzzer_count - 1` (`uint16_t`, so wrapping modulo 2^16) back
into `buzzer_count` and invokes the installed callback exactly when the new
value is zero.  The callback global `buzzer_done_callback` is modelled as the
parameter `cb` (the only callback value occurring in this repository is
`stop_buzzer`; `buzzer_wait` installs it below). -/
def buzzer_isr (cb : BuzzerState → BuzzerState) (s : BuzzerState) :
    BuzzerState :=
  let s1 := { s with port1 := !s.port1, port2 := !s.port2 }
  let remaining := (s1.count + 65535) % 65536
  let s2 := { s1 with count := remaining }
  if remaining = 0 then cb s2 else s2

/-- Timed execution of the interrupt-driven buzzer: while the overflow
interrupt is enabled, each firing of `buzzer_isr` happens one half-period
(`ocr1a` timer ticks, the top value programmed by `start_buzzer`) after the
previous one; the function returns the final state together with the list of
half-period segment lengths (in ticks) that elapsed, one per interrupt
firing.  `fuel` bounds the number of firings considered; once the scheduler
is idle the run stops by itself. -/
def buzzer_run (cb : BuzzerState → BuzzerState) :
    Nat → BuzzerState → BuzzerState × List Nat
  | 0, s => (s, [])
  | fuel + 1, s =>
    if is_buzzer_working s then
      let r := buzzer_run cb fuel (buzzer_isr cb s)
      (r.1, s.ocr1a :: r.2)
    else (s, [])

/-- Source buzzer.c `buzzer_wait(tone, cnt)`: starts the buzzer with
`stop_buzzer` installed as the completion callback and spins until the
scheduler is idle.  The run is modelled by `buzzer_run` with callback
`stop_buzzer`; `cnt` firings always suffice (proved below), so the model uses
fuel `cnt`. -/
def buzzer_wait (tone cnt : Nat) (s : BuzzerState) :
    BuzzerState × List Nat :=
  buzzer_run stop_buzzer cnt (start_buzzer tone cnt s)

/-! ## Theorems about the buzzer scheduler -/

/-- Claim C1: on every call to `start_buzzer`, if the scheduler is idle at
the call the hardware timer counter `TCNT1` is reset to zero, and if the
scheduler is already active the counter is not touched, so the counter is
reset only on the idle-to-active transition; after the call the scheduler is
active either way. -/
theorem start_buzzer_counter_reset (s : BuzzerState) (tone cnt : Nat) :
    (is_buzzer_working s = false → (start_buzzer tone cnt s).tcnt1 = 0)
    ∧ (is_buzzer_working s = true → (start_buzzer tone cnt s).tcnt1 = s.tcnt1)
    ∧ is_buzzer_working (start_buzzer tone cnt s) = true := by
  unfold start_buzzer is_buzzer_working
  cases h : s.toie1 <;> simp [is_buzzer_working, h]

/-- Witness for C1: a concrete idle state has its counter reset by
`start_buzzer`, and a concrete active state keeps its counter. -/
theorem start_buzzer_counter_reset_witness :
    (start_buzzer 1136 100
      ⟨0, 0, 77, 0, false, false, false, false, 0⟩).tcnt1 = 0
    ∧ (start_buzzer 1136 100
      ⟨3, 25, 77, 568, true, false, true, false, 9⟩).tcnt1 = 77 := by
  constructor
  · exact (start_buzzer_counter_reset
      ⟨0, 0, 77, 0, false, false, false, false, 0⟩ 1136 100).1 (by decide)
  · exact (start_buzzer_counter_reset
      ⟨3, 25, 77, 568, true, false, true, false, 9⟩ 1136 100).2.1 (by decide)

/-- Claim C2: one execution of the timer interrupt handler, while the
scheduler is active with a validly armed count (`1 ≤ count < 2^16`, the
spec's precondition `half_period_count ≥ 1`), toggles both buzzer legs,
decrements the remaining half-period count by exactly one, and hands the
resulting state to the installed completion callback exactly when the new
count is zero and on no other tick; when the callback is not invoked, the
handler leaves the interrupt-enable bit (and everything except the legs and
the count) untouched, so the handler itself neither re-arms nor stops the
scheduler. -/
theorem buzzer_isr_step (cb : BuzzerState → BuzzerState) (s : BuzzerState)
    (hact : is_buzzer_working s = true)
    (h1 : 1 ≤ s.count) (h2 : s.count < 65536) :
    buzzer_isr cb s =
      (if s.count = 1 then
        cb { s with port1 := !s.port1, port2 := !s.port2,
                    count := s.count - 1 }
      else { s with port1 := !s.port1, port2 := !s.port2,
                    count := s.count - 1 })
    ∧ (s.count ≠ 1 →
        (buzzer_isr cb s).count = s.count - 1
        ∧ (buzzer_isr cb s).toie1 = s.toie1
        ∧ (buzzer_isr cb s).port1 = !s.port1
        ∧ (buzzer_isr cb s).port2 = !s.port2
        ∧ (buzzer_isr cb s).ocr1a = s.ocr1a) := by
  have hrem : (s.count + 65535) % 65536 = s.count - 1 := by omega
  have hz : ((s.count + 65535) % 65536 = 0) ↔ s.count = 1 := by omega
  unfold buzzer_isr
  simp only [hrem]
  constructor
  · by_cases hc : s.count = 1
    · simp [hc]
    · have : ¬ s.count - 1 = 0 := by omega
      simp [hc, this]
  · intro hc
    have : ¬ s.count - 1 = 0 := by omega
    simp [hc, this]

/-- Witness for C2: a concrete active state with count 2 ticks down to count
1 without invoking the callback and without touching the interrupt-enable
bit. -/
theorem buzzer_isr_step_witness :
    buzzer_isr stop_buzzer ⟨3, 25, 0, 1136, true, false, false, true, 2⟩ =
      { (⟨3, 25, 0, 1136, true, false, false, true, 2⟩ : BuzzerState) with
          port1 := true, port2 := false, count := 1 } := by
  have h := buzzer_isr_step stop_buzzer
    ⟨3, 25, 0, 1136, true, false, false, true, 2⟩
    (by decide) (by decide) (by decide)
  calc buzzer_isr stop_buzzer ⟨3, 25, 0, 1136, true, false, false, true, 2⟩
      = _ := h.1
    _ = _ := by decide

/-- An idle scheduler stays put: with the overflow interrupt disabled no
firing happens, whatever the fuel. -/
theorem buzzer_run_idle (cb : BuzzerState → BuzzerState) (fuel : Nat)
    (s : BuzzerState) (h : is_buzzer_working s = false) :
    buzzer_run cb fuel s = (s, []) := by
  cases fuel <;> simp [buzzer_run, h]

/-- With `stop_buzzer` installed as the callback, an active scheduler armed
with `1 ≤ count < 2^16` fires exactly `count` times, each firing one
half-period (`ocr1a` ticks) after the previous one, and ends idle; any fuel
of at least `count` firings gives this same run. -/
theorem buzzer_run_stop_spec :
    ∀ (n : Nat) (s : BuzzerState), is_buzzer_working s = true →
    s.count = n → 1 ≤ n → n < 65536 → ∀ fuel, n ≤ fuel →
    (buzzer_run stop_buzzer fuel s).2 = List.replicate n s.ocr1a ∧
    is_buzzer_working (buzzer_run stop_buzzer fuel s).1 = false := by
  intro n
  induction n with
  | zero => intro s _ _ h1; omega
  | succ m ih =>
    intro s hw hc h1 hlt fuel hf
    obtain ⟨f, rfl⟩ : ∃ f, fuel = f + 1 := ⟨fuel - 1, by omega⟩
    have hrem : (s.count + 65535) % 65536 = m := by omega
    by_cases hm : m = 0
    · subst hm
      have hstep : buzzer_isr stop_buzzer s =
          stop_buzzer { s with port1 := !s.port1, port2 := !s.port2,
                               count := 0 } := by
        unfold buzzer_isr
        simp [hrem]
      have hidle : is_buzzer_working (buzzer_isr stop_buzzer s) = false := by
        rw [hstep]; rfl
      simp [buzzer_run, hw, buzzer_run_idle stop_buzzer f _ hidle, hidle]
    · have hstep : buzzer_isr stop_buzzer s =
          { s with port1 := !s.port1, port2 := !s.port2, count := m } := by
        unfold buzzer_isr
        simp [hrem, hm]
      have hrec := ih { s with port1 := !s.port1, port2 := !s.port2,
                               count := m }
        (by simpa [is_buzzer_working] using hw) rfl (by omega) (by omega)
        f (by omega)
      simp only [buzzer_run, hw, if_true, hstep]
      constructor
      · simp only [hrec.1]
        rfl
      · exact hrec.2

/-- Claim C3 (amended): `buzzer_wait(T, N)` from an idle scheduler installs
`stop_buzzer` as the completion callback, and the resulting interrupt-driven
run consists of exactly `N` output toggles spaced one half-period `T` apart
(uniform half-periods, hence a 50% duty cycle), so the call busy-waits for
exactly `T·N` timer ticks — not `2·T·N` — and returns with the scheduler
idle; any fuel of at least `N` firings gives the same run, so the spin loop
terminates after those `N` firings. -/
theorem buzzer_wait_timing (s : BuzzerState) (tone cnt : Nat)
    (hidle : is_buzzer_working s = false)
    (ht2 : tone < 65536) (hc1 : 1 ≤ cnt) (hc2 : cnt < 65536) :
    (buzzer_wait tone cnt s).2 = List.replicate cnt tone
    ∧ (buzzer_wait tone cnt s).2.length = cnt
    ∧ (buzzer_wait tone cnt s).2.sum = tone * cnt
    ∧ is_buzzer_working (buzzer_wait tone cnt s).1 = false
    ∧ (∀ fuel, cnt ≤ fuel →
        (buzzer_run stop_buzzer fuel (start_buzzer tone cnt s)).2 =
          List.replicate cnt tone
        ∧ is_buzzer_working
            (buzzer_run stop_buzzer fuel (start_buzzer tone cnt s)).1 =
          false) := by
  have hs : is_buzzer_working (start_buzzer tone cnt s) = true := by
    simp [start_buzzer, is_buzzer_working]
  have hcnt : (start_buzzer tone cnt s).count = cnt := by
    simp [start_buzzer, Nat.mod_eq_of_lt hc2]
  have hocr : (start_buzzer tone cnt s).ocr1a = tone := by
    simp [start_buzzer, Nat.mod_eq_of_lt ht2]
  have hall := fun fuel hf =>
    buzzer_run_stop_spec cnt (start_buzzer tone cnt s) hs hcnt hc1 hc2 fuel hf
  have hmain := hall cnt (Nat.le_refl cnt)
  rw [hocr] at hall hmain
  refine ⟨?_, ?_, ?_, ?_, hall⟩
  · exact hmain.1
  · rw [show (buzzer_wait tone cnt s).2 =
        (buzzer_run stop_buzzer cnt (start_buzzer tone cnt s)).2 from rfl,
      hmain.1]
    simp
  · rw [show (buzzer_wait tone cnt s).2 =
        (buzzer_run stop_buzzer cnt (start_buzzer tone cnt s)).2 from rfl,
      hmain.1]
    simp [List.sum_replicate, Nat.mul_comm]
  · exact hmain.2

/-- Witness for C3 (amended): a concrete `buzzer_wait(2, 3)` from idle gives
three half-period segments of 2 ticks each, 6 ticks total, and ends idle. -/
theorem buzzer_wait_timing_witness :
    (buzzer_wait 2 3 ⟨0, 0, 0, 0, false, false, false, false, 0⟩).2 =
      List.replicate 3 2
    ∧ (buzzer_wait 2 3 ⟨0, 0, 0, 0, false, false, false, false, 0⟩).2.sum =
      2 * 3
    ∧ is_buzzer_working
        (buzzer_wait 2 3 ⟨0, 0, 0, 0, false, false, false, false, 0⟩).1 =
      false := by
  have h := buzzer_wait_timing ⟨0, 0, 0, 0, false, false, false, false, 0⟩
    2 3 (by decide) (by decide) (by decide) (by decide)
  exact ⟨h.1, h.2.2.1, h.2.2.2.1⟩

/-- Counterexample for C3 as stated: for half-period `T = 2` and count
`N = 3`, the blocking player toggles for 6 = `T·N` timer ticks in total, and
6 is not `2·T·N = 12`. -/
theorem buzzer_wait_timing_cex :
    (buzzer_wait 2 3 ⟨0, 0, 0, 0, false, false, false, false, 0⟩).2.sum = 6
    ∧ ¬ ((buzzer_wait 2 3
          ⟨0, 0, 0, 0, false, false, false, false, 0⟩).2.sum = 2 * 2 * 3) := by
  decide

/-- Claim C10: if the timer interrupt handler ever runs with the remaining
count already zero, the unconditional decrement wraps modulo 2^16, so the
stored count becomes 65535 and the completion callback is not invoked on that
tick: the result is the plain toggled state, independent of the installed
callback. -/
theorem buzzer_isr_count_zero_wraps (cb : BuzzerState → BuzzerState)
    (s : BuzzerState) (h0 : s.count = 0) :
    buzzer_isr cb s =
      { s with port1 := !s.port1, port2 := !s.port2, count := 65535 } := by
  unfold buzzer_isr
  simp [h0]

/-- Witness for C10: at a concrete zero-count state the handler yields the
toggled state with count 65535 for two different callbacks (so the callback
was certainly not consulted). -/
theorem buzzer_isr_count_zero_wraps_witness :
    buzzer_isr stop_buzzer ⟨3, 25, 0, 1136, true, false, false, true, 0⟩ =
      { (⟨3, 25, 0, 1136, true, false, false, true, 0⟩ : BuzzerState) with
          port1 := true, port2 := false, count := 65535 }
    ∧ buzzer_isr (fun t => t) ⟨3, 25, 0, 1136, true, false, false, true, 0⟩ =
      { (⟨3, 25, 0, 1136, true, false, false, true, 0⟩ : BuzzerState) with
          port1 := true, port2 := false, count := 65535 } := by
  exact ⟨buzzer_isr_count_zero_wraps stop_buzzer _ (by decide),
         buzzer_isr_count_zero_wraps (fun t => t) _ (by decide)⟩

/-! ## Button sampler (src/Simon.c, identical in both revisions)

The physical buttons are modelled as a trace `pins : Nat → Nat × Nat` giving
the values read from the PINB and PIND registers at the i-th 5 ms sampling
point. -/

/-- Source `get_buttons()`: builds the 4-bit pressed mask from PINB bits 0,1
and PIND bits 7,6; the buttons are active-low (pull-ups), so a cleared pin
bit means pressed. -/
def get_buttons (pinb pind : Nat) : Nat :=
  (((if pinb.testBit 0 then 0 else 1) |||
    (if pinb.testBit 1 then 0 else 2)) |||
    (if pind.testBit 7 then 0 else 4)) |||
    (if pind.testBit 6 then 0 else 8)

/-- The i-th debounced button sample of a pin trace. -/
def sample (pins : Nat → Nat × Nat) (i : Nat) : Nat :=
  get_buttons (pins i).1 (pins i).2

/-- The do-while loop of source `wait_buttons` after its first body
execution: `i` counts samples taken so far, `res` is the OR-accumulated
mask, `cur` the latest sample, and `time` the remaining timeout, already
decremented by the 5 ms debounce quantum (`time_ms -= DEBOUNCE_MS` is
`uint16_t` arithmetic, hence the `% 65536`).  The loop repeats while
`time_ms >= DEBOUNCE_MS && (res == 0 || cur != 0)`.  The model additionally
returns the number of samples taken, which the C code does not expose. -/
def wb_while (pins : Nat → Nat × Nat) (i res cur time : Nat) : Nat × Nat :=
  if h : 5 ≤ time ∧ (res = 0 ∨ cur ≠ 0) then
    wb_while pins (i + 1) (res ||| sample pins i) (sample pins i)
      ((time + 65531) % 65536)
  else (res, i)
termination_by time
decreasing_by
  have h5 := h.1
  omega

/-- Source `wait_buttons(time_ms)`: executes the do-while body once (this is
where an initial `time_ms < 5` wraps the `uint16_t` subtraction) and then
iterates `wb_while`.  Returns the accumulated mask together with the number
of 5 ms samples taken. -/
def wait_buttons (pins : Nat → Nat × Nat) (time_ms : Nat) : Nat × Nat :=
  wb_while pins 1 (0 ||| sample pins 0) (sample pins 0)
    ((time_ms + 65531) % 65536)

/-- OR of the first `n` button samples, accumulated left to right exactly as
the loop does. -/
def or_samples (pins : Nat → Nat × Nat) : Nat → Nat
  | 0 => 0
  | n + 1 => or_samples pins n ||| sample pins n

/-- The loop's accumulator is always the OR of the samples taken so far, and
the sample counter never decreases. -/
theorem wb_while_or (pins : Nat → Nat × Nat) :
    ∀ time i res cur, res = or_samples pins i →
    (wb_while pins i res cur time).1 =
      or_samples pins (wb_while pins i res cur time).2
    ∧ i ≤ (wb_while pins i res cur time).2 := by
  intro time
  induction time using Nat.strong_induction_on with
  | _ time ih =>
    intro i res cur hres
    rw [wb_while.eq_def]
    split
    next h =>
      have hlt : (time + 65531) % 65536 < time := by omega
      have hrec := ih _ hlt (i + 1) (res ||| sample pins i) (sample pins i)
        (by rw [hres]; rfl)
      exact ⟨hrec.1, by omega⟩
    next h => exact ⟨hres, Nat.le_refl i⟩

/-- Within the `uint16_t` range, every loop iteration costs 5 ms of the
remaining timeout, so the loop takes at most `time / 5` further samples. -/
theorem wb_while_le (pins : Nat → Nat × Nat) :
    ∀ time, time < 65536 → ∀ i res cur,
    (wb_while pins i res cur time).2 ≤ i + time / 5 := by
  intro time
  induction time using Nat.strong_induction_on with
  | _ time ih =>
    intro htime i res cur
    rw [wb_while.eq_def]
    split
    next h =>
      have heq : (time + 65531) % 65536 = time - 5 := by omega
      rw [heq]
      have hrec := ih (time - 5) (by omega) (by omega) (i + 1)
        (res ||| sample pins i) (sample pins i)
      omega
    next h => exact Nat.le_add_right i (time / 5)

/-- If every sample the loop can still take is zero, the loop runs the full
remaining timeout down and returns mask 0 after exactly `time / 5` further
samples. -/
theorem wb_while_idle (pins : Nat → Nat × Nat) :
    ∀ time, time < 65536 → ∀ i cur,
    (∀ j, i ≤ j → j < i + time / 5 → sample pins j = 0) →
    wb_while pins i 0 cur time = (0, i + time / 5) := by
  intro time
  induction time using Nat.strong_induction_on with
  | _ time ih =>
    intro htime i cur hz
    rw [wb_while.eq_def]
    split
    next h =>
      have h5 := h.1
      have hs0 : sample pins i = 0 := hz i (Nat.le_refl i) (by omega)
      have heq : (time + 65531) % 65536 = time - 5 := by omega
      rw [heq, hs0]
      simp only [Nat.zero_or]
      have hrec := ih (time - 5) (by omega) (by omega) (i + 1) 0
        (fun j h1 h2 => hz j (by omega) (by omega))
      rw [hrec]
      have harith : i + 1 + (time - 5) / 5 = i + time / 5 := by omega
      rw [harith]
    next h =>
      have h5 : ¬ 5 ≤ time := fun hc => h ⟨hc, Or.inl rfl⟩
      have hdiv : time / 5 = 0 := by omega
      rw [hdiv]
      rfl


/-- Every loop iteration that is taken (other than the unconditional first
body) passed the continuation test: either no press had been observed yet,
or the latest sample still showed a held button.  Contrapositively, the loop
exits as soon as a press has been observed and the latest sample shows full
release. -/
theorem wb_while_early (pins : Nat → Nat × Nat) :
    ∀ time i cur, 1 ≤ i → cur = sample pins (i - 1) →
    ∀ j, i ≤ j →
    j < (wb_while pins i (or_samples pins i) cur time).2 →
    (or_samples pins j = 0 ∨ sample pins (j - 1) ≠ 0) := by
  intro time
  induction time using Nat.strong_induction_on with
  | _ time ih =>
    intro i cur hi hcur j hij hj
    rw [wb_while.eq_def] at hj
    split at hj
    next h =>
      rcases Nat.eq_or_lt_of_le hij with heq | hlt
      · subst heq
        rcases h.2 with h0 | hne
        · exact Or.inl h0
        · rw [hcur] at hne
          exact Or.inr hne
      · have hlt' : (time + 65531) % 65536 < time := by omega
        have hstep : or_samples pins i ||| sample pins i =
            or_samples pins (i + 1) := rfl
        rw [hstep] at hj
        exact ih _ hlt' (i + 1) (sample pins i) (by omega) (by simp) j hlt hj
    next h => omega

/-- A pin trace with every line pulled high: no button is ever pressed. -/
def pins_idle : Nat → Nat × Nat :=
  fun _ => (255, 255)

/-- With all pins pulled high every sample is the empty mask. -/
theorem sample_pins_idle (j : Nat) : sample pins_idle j = 0 := by
  show get_buttons 255 255 = 0
  decide

/-- Claim C5 (amended): for every timeout of at least one 5 ms quantum (and
within the `uint16_t` range), `wait_buttons` OR-accumulates one 4-bit button
sample per 5 ms quantum into the returned mask (so simultaneous presses
merge into one mask), takes at least one and at most `timeout/5` samples,
returns mask 0 after exactly `timeout/5` samples when no button is pressed
within the timeout, and never continues past a sample once a press has been
observed and the latest sample shows all buttons released.  (For timeouts
below 5 ms the `uint16_t` subtraction wraps; see the underflow theorem.) -/
theorem wait_buttons_spec (pins : Nat → Nat × Nat) (t : Nat)
    (h5 : 5 ≤ t) (hlt : t < 65536) :
    (wait_buttons pins t).1 = or_samples pins (wait_buttons pins t).2
    ∧ 1 ≤ (wait_buttons pins t).2
    ∧ (wait_buttons pins t).2 ≤ t / 5
    ∧ ((∀ j, j < t / 5 → sample pins j = 0) →
        wait_buttons pins t = (0, t / 5))
    ∧ (∀ j, 1 ≤ j → j < (wait_buttons pins t).2 →
        (or_samples pins j = 0 ∨ sample pins (j - 1) ≠ 0)) := by
  have heq : (t + 65531) % 65536 = t - 5 := by omega
  have hres1 : (0 : Nat) ||| sample pins 0 = or_samples pins 1 := rfl
  refine ⟨?_, ?_, ?_, ?_, ?_⟩
  · unfold wait_buttons
    exact (wb_while_or pins _ 1 _ (sample pins 0) hres1).1
  · unfold wait_buttons
    exact (wb_while_or pins _ 1 _ (sample pins 0) hres1).2
  · unfold wait_buttons
    rw [heq]
    have hle := wb_while_le pins (t - 5) (by omega) 1 (0 ||| sample pins 0)
      (sample pins 0)
    omega
  · intro hz
    have hs0 : sample pins 0 = 0 := hz 0 (by omega)
    unfold wait_buttons
    rw [heq, hs0]
    have hrec := wb_while_idle pins (t - 5) (by omega) 1 0
      (fun j h1 h2 => hz j (by omega))
    simp only [Nat.or_zero]
    rw [hrec]
    have harith : 1 + (t - 5) / 5 = t / 5 := by omega
    rw [harith]
  · unfold wait_buttons
    rw [hres1]
    exact wb_while_early pins _ 1 (sample pins 0) (by omega) rfl

/-- Witness for C5 (amended): with no button ever pressed and a 7 ms
timeout, the call returns mask 0 after `7/5 = 1` sample, and the mask is the
OR of the samples taken. -/
theorem wait_buttons_spec_witness :
    (wait_buttons pins_idle 7).1 =
      or_samples pins_idle (wait_buttons pins_idle 7).2
    ∧ wait_buttons pins_idle 7 = (0, 7 / 5) := by
  have h := wait_buttons_spec pins_idle 7 (by decide) (by decide)
  exact ⟨h.1, h.2.2.2.1 (fun j _ => sample_pins_idle j)⟩

/-- Counterexample for C5 as stated: at timeout 0 (less than one 5 ms
quantum) with no button ever pressed, `wait_buttons` does not return after
the nominal timeout: it takes 13107 samples (about 65.5 seconds), far more
than the single 5 ms quantum that the claimed timeout bound allows. -/
theorem wait_buttons_spec_cex :
    wait_buttons pins_idle 0 = (0, 13107)
    ∧ ¬ ((wait_buttons pins_idle 0).2 ≤ 0 / 5 + 1) := by
  have hrec := wb_while_idle pins_idle 65531 (by omega) 1 0
    (fun j h1 h2 => sample_pins_idle j)
  have h0 : wait_buttons pins_idle 0 = (0, 13107) := by
    unfold wait_buttons
    rw [sample_pins_idle 0]
    have heq : (0 + 65531) % 65536 = 65531 := by omega
    rw [heq]
    simpa using hrec
  refine ⟨h0, ?_⟩
  rw [h0]
  decide

/-- Claim C9: `wait_buttons` decrements its `uint16_t` remaining timeout by
the 5 ms quantum in every iteration before testing it, so with no buttons
pressed a call with `timeout ≥ 5` returns 0 after exactly `timeout/5`
samples, while a call with `timeout < 5` wraps the subtraction modulo 2^16
and keeps sampling for `1 + (timeout + 65531)/5 ≥ 13107 ≈ 65536/5` further
iterations instead of returning promptly. -/
theorem wait_buttons_underflow (pins : Nat → Nat × Nat) (t : Nat) :
    (5 ≤ t → t < 65536 → (∀ j, sample pins j = 0) →
      wait_buttons pins t = (0, t / 5))
    ∧ (t < 5 → (∀ j, sample pins j = 0) →
      wait_buttons pins t = (0, 1 + (t + 65531) / 5)
      ∧ 13107 ≤ 1 + (t + 65531) / 5) := by
  constructor
  · intro h5 hlt hz
    unfold wait_buttons
    have heq : (t + 65531) % 65536 = t - 5 := by omega
    rw [heq, hz 0]
    have hrec := wb_while_idle pins (t - 5) (by omega) 1 0
      (fun j h1 h2 => hz j)
    simp only [Nat.or_zero]
    rw [hrec]
    have harith : 1 + (t - 5) / 5 = t / 5 := by omega
    rw [harith]
  · intro h5 hz
    constructor
    · unfold wait_buttons
      have heq : (t + 65531) % 65536 = t + 65531 := by omega
      rw [heq, hz 0]
      have hrec := wb_while_idle pins (t + 65531) (by omega) 1 0
        (fun j h1 h2 => hz j)
      simp only [Nat.or_zero]
      rw [hrec]
    · omega

/-- Witness for C9: with no button ever pressed, a 7 ms timeout returns
`(0, 1)` after one sample, and a 0 ms timeout wraps and takes 13107
samples. -/
theorem wait_buttons_underflow_witness :
    wait_buttons pins_idle 7 = (0, 7 / 5)
    ∧ wait_buttons pins_idle 0 = (0, 1 + (0 + 65531) / 5) := by
  constructor
  · exact (wait_buttons_underflow pins_idle 7).1 (by decide) (by decide)
      (fun j => sample_pins_idle j)
  · exact ((wait_buttons_underflow pins_idle 0).2 (by decide)
      (fun j => sample_pins_idle j)).1

/-! ## Entropy source (src/Simon.c `random()`, both revisions)

The free-running Timer1 counter `TCNT1` (a `uint16_t`) is the physical
entropy input; each draw samples it once, so the model takes the sampled
value as a parameter.  The accumulator `rand_seed` is a `uint32_t`. -/

/-- Shared body of both revisions of `random()`: XOR the 16-bit counter
sample into the 32-bit accumulator, then advance it by the linear
congruential step `seed * 22695477 + 1` modulo 2^32. -/
def lcg_step (tcnt seed : Nat) : Nat :=
  ((seed ^^^ (tcnt % 65536)) * 22695477 + 1) % 4294967296

/-- Source revision 1 `random()`: advances the accumulator and returns
`rand_seed >> 24` (cast to `uint8_t`), i.e. the most-significant byte of the
new accumulator.  Result: (returned byte, new accumulator). -/
def random_r1 (tcnt seed : Nat) : Nat × Nat :=
  let s := lcg_step tcnt seed
  ((s >>> 24) % 256, s)

/-- Source revision 2 `random()`: advances the accumulator identically but
returns `rand_seed >> 16` cast to `uint8_t`, i.e. bits 16..23 of the new
accumulator.  Result: (returned byte, new accumulator). -/
def random_r2 (tcnt seed : Nat) : Nat × Nat :=
  let s := lcg_step tcnt seed
  ((s >>> 16) % 256, s)

/-- Claim C7 (amended): each draw XORs the 16-bit counter sample into the
32-bit accumulator and advances it by `acc = acc*22695477 + 1 (mod 2^32)`
(identically in both revisions), and returns a designated byte of the new
accumulator: revision 1 returns the most-significant byte (the value divided
by 2^24), while revision 2 returns bits 16..23, which is not the
most-significant byte in general. -/
theorem random_lcg_spec (tcnt seed : Nat) (hseed : seed < 4294967296) :
    (random_r1 tcnt seed).2 =
      ((seed ^^^ (tcnt % 65536)) * 22695477 + 1) % 4294967296
    ∧ (random_r2 tcnt seed).2 = (random_r1 tcnt seed).2
    ∧ (random_r1 tcnt seed).1 = (random_r1 tcnt seed).2 / 16777216
    ∧ (random_r1 tcnt seed).1 < 256
    ∧ (random_r2 tcnt seed).1 = (random_r2 tcnt seed).2 / 65536 % 256 := by
  have hlt : lcg_step tcnt seed < 4294967296 := Nat.mod_lt _ (by omega)
  refine ⟨rfl, rfl, ?_, ?_, ?_⟩
  · show (lcg_step tcnt seed >>> 24) % 256 = lcg_step tcnt seed / 16777216
    rw [Nat.shiftRight_eq_div_pow]
    have : lcg_step tcnt seed / 2 ^ 24 < 256 := by
      apply Nat.div_lt_of_lt_mul
      omega
    omega
  · show (lcg_step tcnt seed >>> 24) % 256 < 256
    exact Nat.mod_lt _ (by omega)
  · show (lcg_step tcnt seed >>> 16) % 256 = lcg_step tcnt seed / 65536 % 256
    rw [Nat.shiftRight_eq_div_pow]

/-- Witness for C7 (amended): concrete draw from accumulator 0 with counter
sample 1: both revisions advance the accumulator to 22695478, revision 1
returns its most-significant byte 1, revision 2 returns byte 90. -/
theorem random_lcg_spec_witness :
    (random_r1 1 0).2 = ((0 ^^^ (1 % 65536)) * 22695477 + 1) % 4294967296
    ∧ (random_r1 1 0).1 = (random_r1 1 0).2 / 16777216 := by
  have h := random_lcg_spec 1 0 (by decide)
  exact ⟨h.1, h.2.2.1⟩

/-- Counterexample for C7 as stated: revision 2's `random()` does not return
the most-significant byte of the advanced accumulator: from accumulator 0
and counter sample 1 it returns 90, while the most-significant byte of the
new accumulator 22695478 is 1. -/
theorem random_lcg_spec_cex :
    (random_r2 1 0).1 = 90
    ∧ (random_r2 1 0).2 / 16777216 = 1
    ∧ ¬ ((random_r2 1 0).1 = (random_r2 1 0).2 / 16777216) := by
  decide

/-! ## Game engine (src/Simon.c)

The game reaches the buttons only through the return values of
`wait_buttons` (and `get_buttons` during the release loop of `wait_start`),
so at this layer the player is modelled as an oracle giving the mask each
`wait_buttons(3000)` call returns; the entropy counter samples are a trace
`tcnt : Nat → Nat` indexed by draw number.  The LED and tone side effects
(`set_leds`, `play_tone`/`play_note`, the `_delay_ms` pacing) change no game
state and are not modelled; the fed-back tones are recorded as data. -/

/-- Source `buttons_count(mask)`: number of the four button bits set. -/
def buttons_count (mask : Nat) : Nat :=
  (if mask &&& 1 ≠ 0 then 1 else 0) +
  (if mask &&& 2 ≠ 0 then 1 else 0) +
  (if mask &&& 4 ≠ 0 then 1 else 0) +
  (if mask &&& 8 ≠ 0 then 1 else 0)

/-- Source `#define MAX_GAME_LEVEL 64`: capacity of the sequence array. -/
def MAX_GAME_LEVEL : Nat := 64

/-- Source `uint8_t game_level = 5;`: the power-on game level. -/
def game_level_init : Nat := 5

/-- Level-configuration tail of source `wait_start()` (identical in both
revisions): `buttons` is the OR-accumulated startup combo; 2 pressed buttons
set level 15, 3 set 20, 4 set 25, and any other count leaves the level
unchanged. -/
def wait_start_level (buttons level : Nat) : Nat :=
  let cnt := buttons_count buttons
  if cnt = 2 then 15
  else if cnt = 3 then 20
  else if cnt = 4 then 25
  else level

/-- Observable outcome of one verification pass: whether every position
matched (`WINNER`/full loop), how many positions were evaluated (= how many
`wait_buttons` calls were made), the timeout passed to each call, and the
masks/symbols fed back as button tones. -/
structure VerifyOut where
  win : Bool
  checked : Nat
  timeouts : List Nat
  feedback : List Nat
deriving DecidableEq

/-- Source revision 1 `test_game_sequence()`: for each position of the
sequence (a list of symbols 0..3) it calls `wait_buttons(3000)` — modelled
by the per-position oracle `inp` — and returns `LOSER` immediately if the
mask differs from `_BV(symbol)`; on a match it plays that button's tone
(recorded in `feedback`) and moves on; `WINNER` after the last position. -/
def test_game_sequence (inp : Nat → Nat) : List Nat → Nat → VerifyOut
  | [], _ => ⟨true, 0, [], []⟩
  | sym :: rest, p =>
    let mask := inp p
    if mask = 1 <<< sym then
      let r := test_game_sequence inp rest (p + 1)
      ⟨r.win, r.checked + 1, 3000 :: r.timeouts, sym :: r.feedback⟩
    else ⟨false, 1, [3000], []⟩

/-- Source revision 2, verification loop of `main()`: for each position of
`game_string` (a list of button masks) it calls `wait_buttons(3000)`, plays
the returned mask's tone whenever exactly one bit is set (`toner(choice)`,
recorded in `feedback`, before the match test), and jumps to the loser
branch immediately when the mask differs from the stored mask. -/
def verify_r2 (inp : Nat → Nat) : List Nat → Nat → VerifyOut
  | [], _ => ⟨true, 0, [], []⟩
  | m :: rest, p =>
    let choice := inp p
    let fb := if buttons_count choice = 1 then [choice] else []
    if choice = m then
      let r := verify_r2 inp rest (p + 1)
      ⟨r.win, r.checked + 1, 3000 :: r.timeouts, fb ++ r.feedback⟩
    else ⟨false, 1, [3000], fb⟩

/-- What source revision 2's `main` does right after its verification loop:
a mismatch means `play_loser(); goto BEGIN_GAME` (LOSE, level untouched); a
full match with `current_pos == game_level` means `play_winner();
game_level++` (`uint8_t`); otherwise the next round follows. -/
inductive R2Outcome where
  | lose
  | winGame
  | nextRound
deriving DecidableEq

/-- One verification pass of source revision 2's `main` together with its
immediate consequence for `game_level`. -/
def round_verify_r2 (inp : Nat → Nat) (string : List Nat) (level : Nat) :
    VerifyOut × R2Outcome × Nat :=
  let v := verify_r2 inp string 0
  if v.win = false then (v, R2Outcome.lose, level)
  else if string.length = level then (v, R2Outcome.winGame, (level + 1) % 256)
  else (v, R2Outcome.nextRound, level)

/-- Source revision 2 `add_to_game_string()`: the stored mask of a fresh
symbol is `1 << (random() & 3)`. -/
def add_to_game_string_mask (randByte : Nat) : Nat :=
  1 <<< (randByte &&& 3)

/-! ### Revision 1 game loop -/

/-- The `while (1)` loop of source revision 1 `single_game()`.  Arguments:
`fuel` (an upper bound on the number of rounds considered; the C loop has no
bound of its own, so fuel exhaustion returns `none`), the accumulator
`seed`, the sequence contents `seq`, the `uint8_t` cursor `game_position`
(`pos`), the round/draw counter `k` indexing the environment traces, and the
accumulated list `idxs` of array indices written by `add_to_game_sequence`
(`game_sequence[game_position++] = random() & 3`; indices at or beyond
`MAX_GAME_LEVEL` are out-of-bounds writes in C, which is exactly what claim
C8 is about).  Each round appends `random() & 3`, plays the sequence back
(no game state change), runs `test_game_sequence` with this round's input
oracle, returns `LOSER` on a failed test, `WINNER` when the incremented
cursor equals `game_level`, and otherwise continues. -/
def single_game_go (inp : Nat → Nat → Nat) (tcnt : Nat → Nat) (level : Nat) :
    Nat → Nat → List Nat → Nat → Nat → List Nat →
    Option (Bool × List Nat × Nat × List Nat)
  | 0, _, _, _, _, _ => none
  | fuel + 1, seed, seq, pos, k, idxs =>
    let r := random_r1 (tcnt k) seed
    let sym := r.1 &&& 3
    let seq' := seq ++ [sym]
    let idxs' := idxs ++ [pos]
    let pos' := (pos + 1) % 256
    if (test_game_sequence (inp k) seq' 0).win then
      if pos' = level then some (true, seq', pos', idxs')
      else single_game_go inp tcnt level fuel r.2 seq' pos' (k + 1) idxs'
    else some (false, seq', pos', idxs')

/-- Source revision 1 `single_game()`: `new_game_sequence()` resets the
cursor to 0 and the loop runs from an empty sequence. -/
def single_game (inp : Nat → Nat → Nat) (tcnt : Nat → Nat)
    (seed level fuel : Nat) : Option (Bool × List Nat × Nat × List Nat) :=
  single_game_go inp tcnt level fuel seed [] 0 0 []

/-- Source revision 1 `main`, `game_level++` on a win (`uint8_t`). -/
def win_level_update (level : Nat) : Nat :=
  (level + 1) % 256

/-- One iteration of source revision 1 `main`'s forever loop, restricted to
its effect on `game_level`: `wait_start()` applies the startup-combo rule,
then a full game is played; a win increments the level, a loss leaves it
unchanged.  Returns `none` when the game outruns the fuel. -/
def main_iter (combo : Nat) (inp : Nat → Nat → Nat) (tcnt : Nat → Nat)
    (seed fuel level : Nat) : Option Nat :=
  let l1 := wait_start_level combo level
  match single_game inp tcnt seed l1 fuel with
  | none => none
  | some r => some (if r.1 then win_level_update l1 else l1)

/-- The game levels reachable from power-on under some sequence of player
inputs and entropy traces (the startup combo is nonzero because
`wait_start` loops until a button is pressed, and is a 4-bit mask). -/
inductive reachable_level : Nat → Prop where
  | boot : reachable_level game_level_init
  | step (l combo : Nat) (inp : Nat → Nat → Nat) (tcnt : Nat → Nat)
      (seed fuel l' : Nat) : reachable_level l → combo ≠ 0 → combo < 16 →
      main_iter combo inp tcnt seed fuel l = some l' → reachable_level l'

/-! ### Verification-pass lemmas -/

/-- The freshly stored masks of revision 2 are exactly the four single-bit
button masks. -/
theorem add_to_game_string_mask_cases (b : Nat) :
    add_to_game_string_mask b = 1 ∨ add_to_game_string_mask b = 2 ∨
    add_to_game_string_mask b = 4 ∨ add_to_game_string_mask b = 8 := by
  have h3 : b &&& 3 ≤ 3 := Nat.and_le_right
  rcases (by omega : b &&& 3 = 0 ∨ b &&& 3 = 1 ∨ b &&& 3 = 2 ∨ b &&& 3 = 3)
    with h | h | h | h <;>
    · unfold add_to_game_string_mask
      rw [h]
      decide

/-- Behaviour of revision 2's verification loop on a play that matches the
first `j` stored masks and then answers position `j` wrongly (in particular
with the timeout mask 0): the loop makes exactly `j + 1` calls, each with
the 3000 ms timeout, plays back every exactly-one-bit answer among those
`j + 1` as that button's tone, and reports the loss. -/
theorem verify_r2_mismatch :
    ∀ (string : List Nat) (inp : Nat → Nat) (p j : Nat)
    (hj : j < string.length),
    (∀ i (hi : i < string.length), i < j → inp (p + i) = string.get ⟨i, hi⟩) →
    inp (p + j) ≠ string.get ⟨j, hj⟩ →
    verify_r2 inp string p =
      ⟨false, j + 1, List.replicate (j + 1) 3000,
        ((List.range' p (j + 1)).filter
          (fun q => buttons_count (inp q) = 1)).map inp⟩ := by
  intro string
  induction string with
  | nil => intro inp p j hj; exact absurd hj (by simp)
  | cons m rest ih =>
    intro inp p j hj hpre hmis
    cases j with
    | zero =>
      have hne : inp p ≠ m := by simpa using hmis
      unfold verify_r2
      rw [if_neg hne]
      have hr : List.range' p 1 = [p] := rfl
      rw [hr]
      by_cases hb : buttons_count (inp p) = 1 <;>
        simp [List.filter_cons, hb]
    | succ j' =>
      have hhead : inp p = m := by
        have := hpre 0 (by simp) (by omega)
        simpa using this
      have hj' : j' < rest.length := by simpa using hj
      have hpre' : ∀ i (hi : i < rest.length), i < j' →
          inp (p + 1 + i) = rest.get ⟨i, hi⟩ := by
        intro i hi hij
        have := hpre (i + 1) (by simpa using Nat.succ_lt_succ hi)
          (by omega)
        have harg : p + (i + 1) = p + 1 + i := by omega
        rw [harg] at this
        simpa using this
      have hmis' : inp (p + 1 + j') ≠ rest.get ⟨j', hj'⟩ := by
        have harg : p + (j' + 1) = p + 1 + j' := by omega
        rw [harg] at hmis
        simpa using hmis
      have hrec := ih inp (p + 1) j' hj' hpre' hmis'
      unfold verify_r2
      rw [if_pos hhead, hrec]
      have hrange : List.range' p (j' + 1 + 1) =
          p :: List.range' (p + 1) (j' + 1) := List.range'_succ p (j' + 1) 1
      rw [hrange]
      by_cases hb : buttons_count (inp p) = 1 <;>
        simp [List.filter_cons, hb, List.replicate_succ]

/-- Behaviour of revision 1's `test_game_sequence` on a play that matches
the first `j` symbols and then answers position `j` wrongly: exactly `j + 1`
calls with the 3000 ms timeout, feedback tones only for the `j` matched
symbols, and `LOSER` reported. -/
theorem test_game_sequence_mismatch :
    ∀ (seq : List Nat) (inp : Nat → Nat) (p j : Nat)
    (hj : j < seq.length),
    (∀ i (hi : i < seq.length), i < j → inp (p + i) = 1 <<< seq.get ⟨i, hi⟩) →
    inp (p + j) ≠ 1 <<< seq.get ⟨j, hj⟩ →
    test_game_sequence inp seq p =
      ⟨false, j + 1, List.replicate (j + 1) 3000, seq.take j⟩ := by
  intro seq
  induction seq with
  | nil => intro inp p j hj; exact absurd hj (by simp)
  | cons sym rest ih =>
    intro inp p j hj hpre hmis
    cases j with
    | zero =>
      have hne : inp p ≠ 1 <<< sym := by simpa using hmis
      unfold test_game_sequence
      rw [if_neg hne]
      simp
    | succ j' =>
      have hhead : inp p = 1 <<< sym := by
        have := hpre 0 (by simp) (by omega)
        simpa using this
      have hj' : j' < rest.length := by simpa using hj
      have hpre' : ∀ i (hi : i < rest.length), i < j' →
          inp (p + 1 + i) = 1 <<< rest.get ⟨i, hi⟩ := by
        intro i hi hij
        have := hpre (i + 1) (by simpa using Nat.succ_lt_succ hi)
          (by omega)
        have harg : p + (i + 1) = p + 1 + i := by omega
        rw [harg] at this
        simpa using this
      have hmis' : inp (p + 1 + j') ≠ 1 <<< rest.get ⟨j', hj'⟩ := by
        have harg : p + (j' + 1) = p + 1 + j' := by omega
        rw [harg] at hmis
        simpa using hmis
      have hrec := ih inp (p + 1) j' hj' hpre' hmis'
      unfold test_game_sequence
      rw [if_pos hhead, hrec]
      simp [List.replicate_succ]

/-- Revision 1's `test_game_sequence` reports `WINNER` against a player that
answers every position with the stored symbol's mask. -/
theorem test_game_sequence_win :
    ∀ (seq : List Nat) (inp : Nat → Nat) (p : Nat),
    (∀ i (hi : i < seq.length), inp (p + i) = 1 <<< seq.get ⟨i, hi⟩) →
    (test_game_sequence inp seq p).win = true := by
  intro seq
  induction seq with
  | nil => intro inp p _; rfl
  | cons sym rest ih =>
    intro inp p hall
    have hhead : inp p = 1 <<< sym := by
      have := hall 0 (by simp)
      simpa using this
    have hall' : ∀ i (hi : i < rest.length),
        inp (p + 1 + i) = 1 <<< rest.get ⟨i, hi⟩ := by
      intro i hi
      have := hall (i + 1) (by simpa using Nat.succ_lt_succ hi)
      have harg : p + (i + 1) = p + 1 + i := by omega
      rw [harg] at this
      simpa using this
    unfold test_game_sequence
    rw [if_pos hhead]
    exact ih inp (p + 1) hall'

/-- Claim C4: in the verification phase, the engine makes one
`wait_buttons(3000)` call per position; an answer mask with exactly one bit
set is played back as that button's tone (revision 2's loop, which tones
before the match test; revision 1 tones the matched symbol); any mismatch
with the expected stored value — including the timeout mask 0, which never
equals a stored mask since every stored mask is one of 1,2,4,8 — loses
immediately, with exactly the first `j + 1` positions evaluated, the
remaining ones unchecked, and `game_level` unchanged.  The final conjunct
states the same immediate-loss shape for revision 1's
`test_game_sequence`. -/
theorem round_verify_lose_spec (inp : Nat → Nat) (string : List Nat)
    (level j : Nat)
    (hmask : ∀ m ∈ string, m = 1 ∨ m = 2 ∨ m = 4 ∨ m = 8)
    (hj : j < string.length)
    (hpre : ∀ i (hi : i < string.length), i < j → inp i = string.get ⟨i, hi⟩)
    (hmis : inp j ≠ string.get ⟨j, hj⟩) :
    (round_verify_r2 inp string level).2.1 = R2Outcome.lose
    ∧ (round_verify_r2 inp string level).2.2 = level
    ∧ (round_verify_r2 inp string level).1.win = false
    ∧ (round_verify_r2 inp string level).1.checked = j + 1
    ∧ (round_verify_r2 inp string level).1.timeouts =
        List.replicate (j + 1) 3000
    ∧ (round_verify_r2 inp string level).1.feedback =
        ((List.range (j + 1)).filter
          (fun q => buttons_count (inp q) = 1)).map inp
    ∧ (∀ i (hi : i < string.length), string.get ⟨i, hi⟩ ≠ 0)
    ∧ (∀ b, add_to_game_string_mask b = 1 ∨ add_to_game_string_mask b = 2 ∨
        add_to_game_string_mask b = 4 ∨ add_to_game_string_mask b = 8)
    ∧ (∀ (seq : List Nat) (inp2 : Nat → Nat) (j2 : Nat)
        (hj2 : j2 < seq.length),
        (∀ i (hi : i < seq.length), i < j2 →
          inp2 i = 1 <<< seq.get ⟨i, hi⟩) →
        inp2 j2 ≠ 1 <<< seq.get ⟨j2, hj2⟩ →
        (test_game_sequence inp2 seq 0).win = false
        ∧ (test_game_sequence inp2 seq 0).checked = j2 + 1
        ∧ (test_game_sequence inp2 seq 0).timeouts =
            List.replicate (j2 + 1) 3000) := by
  have hpre0 : ∀ i (hi : i < string.length), i < j →
      inp (0 + i) = string.get ⟨i, hi⟩ := by
    intro i hi hij
    simpa using hpre i hi hij
  have hmis0 : inp (0 + j) ≠ string.get ⟨j, hj⟩ := by simpa using hmis
  have hv := verify_r2_mismatch string inp 0 j hj hpre0 hmis0
  have hwin : (verify_r2 inp string 0).win = false := by rw [hv]
  have hround : round_verify_r2 inp string level =
      (verify_r2 inp string 0, R2Outcome.lose, level) := by
    unfold round_verify_r2
    rw [if_pos hwin]
  rw [hround, hv]
  refine ⟨rfl, rfl, rfl, rfl, rfl, ?_, ?_, add_to_game_string_mask_cases, ?_⟩
  · rw [List.range_eq_range']
  · intro i hi
    have := hmask (string.get ⟨i, hi⟩) (List.get_mem string i hi)
    rcases this with h | h | h | h <;> omega
  · intro seq inp2 j2 hj2 hpre2 hmis2
    have hpre0' : ∀ i (hi : i < seq.length), i < j2 →
        inp2 (0 + i) = 1 <<< seq.get ⟨i, hi⟩ := by
      intro i hi hij
      simpa using hpre2 i hi hij
    have hmis0' : inp2 (0 + j2) ≠ 1 <<< seq.get ⟨j2, hj2⟩ := by
      simpa using hmis2
    have ht := test_game_sequence_mismatch seq inp2 0 j2 hj2 hpre0' hmis0'
    rw [ht]
    exact ⟨rfl, rfl, rfl⟩

/-- Witness for C4: with stored masks `[1, 2]`, a player that answers 1 and
then times out (mask 0) loses at position 1 after two 3000 ms waits, with
the level (5) unchanged and only the single-bit answer 1 played back. -/
theorem round_verify_lose_spec_witness :
    (round_verify_r2 (fun i => if i = 0 then 1 else 0) [1, 2] 5).2.1 =
      R2Outcome.lose
    ∧ (round_verify_r2 (fun i => if i = 0 then 1 else 0) [1, 2] 5).2.2 = 5
    ∧ (round_verify_r2 (fun i => if i = 0 then 1 else 0) [1, 2] 5).1.checked
      = 2
    ∧ (round_verify_r2 (fun i => if i = 0 then 1 else 0) [1, 2] 5).1.timeouts
      = List.replicate 2 3000 := by
  have h := round_verify_lose_spec (fun i => if i = 0 then 1 else 0) [1, 2]
    5 1 (by decide) (by decide)
    (fun i hi hij => by
      have hi0 : i = 0 := by omega
      subst hi0
      rfl)
    (by decide)
  exact ⟨h.1, h.2.1, h.2.2.2.1, h.2.2.2.2.1⟩

/-! ### A perfect player for revision 1

The accumulator evolves deterministically given the trace of counter
samples, so the symbol appended in round `k` is a function of the traces;
a player oracle that always answers with that symbol's mask wins every
round. -/

/-- Accumulator value after `k` draws of revision 1 `random()` against the
counter-sample trace `tcnt`, starting from `seed0`. -/
def seed_after (tcnt : Nat → Nat) (seed0 : Nat) : Nat → Nat
  | 0 => seed0
  | k + 1 => (random_r1 (tcnt k) (seed_after tcnt seed0 k)).2

/-- The symbol appended in round `k` of a revision 1 game. -/
def sym_at (tcnt : Nat → Nat) (seed0 k : Nat) : Nat :=
  (random_r1 (tcnt k) (seed_after tcnt seed0 k)).1 &&& 3

/-- The first `k` symbols of a revision 1 game. -/
def sym_list (tcnt : Nat → Nat) (seed0 k : Nat) : List Nat :=
  (List.range k).map (sym_at tcnt seed0)

/-- The always-correct player oracle. -/
def perfect_inp (tcnt : Nat → Nat) (seed0 : Nat) : Nat → Nat → Nat :=
  fun _ p => 1 <<< sym_at tcnt seed0 p

/-- Appending the next symbol extends the symbol list. -/
theorem sym_list_succ (tcnt : Nat → Nat) (seed0 k : Nat) :
    sym_list tcnt seed0 k ++ [sym_at tcnt seed0 k] =
      sym_list tcnt seed0 (k + 1) := by
  simp [sym_list, List.range_succ]

/-- Against the perfect player, every round's `test_game_sequence` passes. -/
theorem test_perfect_win (tcnt : Nat → Nat) (seed0 k n : Nat) :
    (test_game_sequence (perfect_inp tcnt seed0 k)
      (sym_list tcnt seed0 n) 0).win = true := by
  apply test_game_sequence_win
  intro i hi
  have hget : (sym_list tcnt seed0 n).get ⟨i, hi⟩ = sym_at tcnt seed0 i := by
    simp [sym_list]
  rw [hget]
  show (1 : Nat) <<< sym_at tcnt seed0 (0 + i) = 1 <<< sym_at tcnt seed0 i
  simp

/-- A perfect-player game at level `L ≤ 255` runs `R` rounds — `R = L` for
`L ≥ 1`, and `R = 256` for `L = 0`, since `game_position` is a `uint8_t`
that must wrap back to 0 before the `game_position == game_level` win test
can succeed — appending one symbol per round at array indices
`k, k+1, ..., R-1` and ending in a `WINNER`. -/
theorem single_game_go_perfect (tcnt : Nat → Nat) (seed0 level R : Nat)
    (hR : R = if level = 0 then 256 else level) (hlev : level ≤ 255) :
    ∀ fuel k idxs, k < R → R ≤ k + fuel →
    single_game_go (perfect_inp tcnt seed0) tcnt level fuel
      (seed_after tcnt seed0 k) (sym_list tcnt seed0 k) k k idxs
    = some (true, sym_list tcnt seed0 R, level,
        idxs ++ List.range' k (R - k)) := by
  have hR256 : R ≤ 256 := by
    by_cases h0 : level = 0 <;> simp [h0] at hR <;> omega
  intro fuel
  induction fuel with
  | zero => intro k idxs h1 h2; omega
  | succ f ih =>
    intro k idxs hk hle
    have hsym : (random_r1 (tcnt k) (seed_after tcnt seed0 k)).1 &&& 3 =
        sym_at tcnt seed0 k := rfl
    have hseed : (random_r1 (tcnt k) (seed_after tcnt seed0 k)).2 =
        seed_after tcnt seed0 (k + 1) := rfl
    have htest := test_perfect_win tcnt seed0 k (k + 1)
    simp only [single_game_go, hsym, hseed, sym_list_succ]
    rw [if_pos htest]
    rcases Nat.lt_or_ge (k + 1) R with hlt | hge
    · -- more rounds to go: the cursor does not reach the level yet
      have hpos : (k + 1) % 256 = k + 1 := Nat.mod_eq_of_lt (by omega)
      have hne : ¬ ((k + 1) % 256 = level) := by
        rw [hpos]
        by_cases h0 : level = 0 <;> simp [h0] at hR <;> omega
      rw [if_neg hne, hpos]
      have hrec := ih (k + 1) (idxs ++ [k]) hlt (by omega)
      rw [hrec]
      have hsplit : List.range' k (R - k) =
          k :: List.range' (k + 1) (R - (k + 1)) := by
        have : R - k = (R - (k + 1)) + 1 := by omega
        rw [this, List.range'_succ]
      rw [hsplit]
      simp
    · -- final round: k + 1 = R and the cursor reaches the level
      have hkR : k + 1 = R := by omega
      have hpos : (k + 1) % 256 = level := by
        by_cases h0 : level = 0
        · simp [h0] at hR
          omega
        · simp [h0] at hR
          have : k + 1 = level := by omega
          rw [this]
          exact Nat.mod_eq_of_lt (by omega)
      rw [if_pos hpos, hpos, hkR]
      have hone : List.range' k (R - k) = [k] := by
        have : R - k = 1 := by omega
        rw [this, List.range'_one]
      rw [hone]

/-- In a game at level `1 ≤ L ≤ 64`, every array index written by
`add_to_game_sequence` stays below the capacity `MAX_GAME_LEVEL = 64`,
whatever the player does and however the run ends. -/
theorem single_game_go_inbounds (inp : Nat → Nat → Nat) (tcnt : Nat → Nat)
    (level : Nat) (h1 : 1 ≤ level) (h64 : level ≤ 64) :
    ∀ fuel seed seq pos k idxs, pos < level →
    (∀ i ∈ idxs, i < MAX_GAME_LEVEL) →
    ∀ w s n out,
    single_game_go inp tcnt level fuel seed seq pos k idxs =
      some (w, s, n, out) →
    ∀ i ∈ out, i < MAX_GAME_LEVEL := by
  intro fuel
  induction fuel with
  | zero =>
    intro seed seq pos k idxs hpos hidx w s n out heq
    simp [single_game_go] at heq
  | succ f ih =>
    intro seed seq pos k idxs hpos hidx w s n out heq
    have hidx' : ∀ i ∈ idxs ++ [pos], i < MAX_GAME_LEVEL := by
      intro i hi
      rcases List.mem_append.1 hi with h | h
      · exact hidx i h
      · have : i = pos := by simpa using h
        subst this
        show i < 64
        omega
    simp only [single_game_go] at heq
    split at heq
    · split at heq
      · cases heq
        exact hidx'
      · have hpos' : (pos + 1) % 256 = pos + 1 := Nat.mod_eq_of_lt (by omega)
        rw [hpos'] at heq
        rename_i hwin hmodne
        rw [hpos'] at hmodne
        have hlt : pos + 1 < level := by omega
        exact ih _ _ _ _ _ hlt hidx' w s n out heq
    · cases heq
      exact hidx'

/-- A perfect-player game at level `1 ≤ L ≤ 255` is won in `L` rounds, with
the sequence array written at indices `0 .. L-1`. -/
theorem single_game_perfect (tcnt : Nat → Nat) (seed0 level : Nat)
    (h1 : 1 ≤ level) (h255 : level ≤ 255) :
    single_game (perfect_inp tcnt seed0) tcnt seed0 level level =
      some (true, sym_list tcnt seed0 level, level, List.range' 0 level) := by
  have h := single_game_go_perfect tcnt seed0 level level
    (by rw [if_neg (by omega)]) h255 level 0 [] (by omega) (by omega)
  simpa [single_game, sym_list] using h

/-- A perfect-player game at level 0 is also "won" — but only after the
`uint8_t` cursor wraps: 256 rounds, writing the 64-entry array at indices
`0 .. 255`. -/
theorem single_game_perfect_level0 (tcnt : Nat → Nat) (seed0 : Nat) :
    single_game (perfect_inp tcnt seed0) tcnt seed0 0 256 =
      some (true, sym_list tcnt seed0 256, 0, List.range' 0 256) := by
  have h := single_game_go_perfect tcnt seed0 0 256 (by rw [if_pos rfl])
    (by omega) 256 0 [] (by omega) (by omega)
  simpa [single_game, sym_list] using h

/-- From any reachable level `1 ≤ l ≤ 255`, one more attempt — a one-button
startup combo (level unchanged) followed by a perfect game — reaches level
`(l + 1) % 256`. -/
theorem reachable_level_succ (l : Nat) (h1 : 1 ≤ l) (h255 : l ≤ 255)
    (hr : reachable_level l) : reachable_level ((l + 1) % 256) := by
  apply reachable_level.step l 1 (perfect_inp (fun _ => 0) 0) (fun _ => 0)
    0 l ((l + 1) % 256) hr (by decide) (by decide)
  have hcombo : wait_start_level 1 l = l := by
    have hc : buttons_count 1 = 1 := by decide
    unfold wait_start_level
    rw [hc]
    rfl
  have hgame := single_game_perfect (fun _ => 0) 0 l h1 h255
  simp [main_iter, hcombo, hgame, win_level_update]

/-- Level 25 is reachable: press all four buttons at startup (the first
attempt may simply be lost). -/
theorem reachable_level_25 : reachable_level 25 := by
  apply reachable_level.step 5 15 (fun _ _ => 0) (fun _ => 0) 0 1 25
    reachable_level.boot (by decide) (by decide)
  decide

/-- Every level `25 + n ≤ 255` is reachable by `n` consecutive wins after a
four-button startup combo. -/
theorem reachable_level_25_add : ∀ n, 25 + n ≤ 255 →
    reachable_level (25 + n) := by
  intro n
  induction n with
  | zero => intro _; exact reachable_level_25
  | succ m ih =>
    intro h
    have hr := ih (by omega)
    have hstep := reachable_level_succ (25 + m) (by omega) (by omega) hr
    have harith : (25 + m + 1) % 256 = 25 + (m + 1) := by omega
    rwa [harith] at hstep

/-- Claim C6 (amended): `game_level` starts at 5; the startup combo leaves
it unchanged on a single press and sets 15/20/25 for 2/3/4 pressed buttons;
a win increments it by exactly 1 whenever it is below 255 (being a
`uint8_t`, a win at level 255 wraps it to 0); a loss leaves it unchanged.
The last conjunct ties this to `main`'s loop: whenever the played game
terminates, the next level is the win-incremented (respectively unchanged)
configured level. -/
theorem game_level_spec :
    game_level_init = 5
    ∧ (∀ combo level, buttons_count combo = 1 →
        wait_start_level combo level = level)
    ∧ (∀ combo level, buttons_count combo = 2 →
        wait_start_level combo level = 15)
    ∧ (∀ combo level, buttons_count combo = 3 →
        wait_start_level combo level = 20)
    ∧ (∀ combo level, buttons_count combo = 4 →
        wait_start_level combo level = 25)
    ∧ (∀ level, level ≤ 254 → win_level_update level = level + 1)
    ∧ win_level_update 255 = 0
    ∧ (∀ (combo : Nat) (inp : Nat → Nat → Nat) (tcnt : Nat → Nat)
        (seed fuel level : Nat) (r : Bool × List Nat × Nat × List Nat),
        single_game inp tcnt seed (wait_start_level combo level) fuel =
          some r →
        main_iter combo inp tcnt seed fuel level =
          some (if r.1 then win_level_update (wait_start_level combo level)
                else wait_start_level combo level)) := by
  refine ⟨rfl, ?_, ?_, ?_, ?_, ?_, rfl, ?_⟩
  · intro combo level hc
    unfold wait_start_level
    rw [hc]
    rfl
  · intro combo level hc
    unfold wait_start_level
    rw [hc]
    rfl
  · intro combo level hc
    unfold wait_start_level
    rw [hc]
    rfl
  · intro combo level hc
    unfold wait_start_level
    rw [hc]
    rfl
  · intro level h
    unfold win_level_update
    omega
  · intro combo inp tcnt seed fuel level r heq
    simp only [main_iter, heq]

/-- Witness for C6 (amended): a two-button startup combo (mask 3) from the
power-on level 5 configures level 15; a win at 15 would make it 16; a
concrete immediately-lost game leaves the configured level 15 unchanged. -/
theorem game_level_spec_witness :
    wait_start_level 3 5 = 15
    ∧ win_level_update 15 = 16
    ∧ main_iter 3 (fun _ _ => 0) (fun _ => 0) 0 1 5 = some 15 := by
  have h := game_level_spec
  refine ⟨h.2.2.1 3 5 (by decide), h.2.2.2.2.2.1 15 (by decide), ?_⟩
  have hlink := h.2.2.2.2.2.2.2 3 (fun _ _ => 0) (fun _ => 0) 0 1 5
    (false, [0], 1, [0]) (by decide)
  calc main_iter 3 (fun _ _ => 0) (fun _ => 0) 0 1 5
      = _ := hlink
    _ = some 15 := by decide

/-- Counterexample for C6 as stated: level 255 is reachable (230 consecutive
wins after a four-button combo), and a win there does not increment
`game_level` by exactly 1: the `uint8_t` increment wraps it to 0. -/
theorem game_level_spec_cex :
    reachable_level 255
    ∧ win_level_update 255 = 0
    ∧ ¬ (win_level_update 255 = 255 + 1) := by
  refine ⟨?_, by decide, by decide⟩
  exact reachable_level_25_add 230 (by omega)

/-- Claim C8 (amended): with `1 ≤ game_level ≤ 64` every array index written
during a game stays below the capacity `MAX_GAME_LEVEL = 64`; but no
operation clamps the level to the capacity — the startup combo only ever
sets a value that is at most 25 or leaves the level alone, and a win
increments without any cap — so level 65 is reachable, and a (perfectly
played) game at level 65 writes the sequence array at index 64, one past its
last valid index.  (The `1 ≤ game_level` bound is necessary: see the
counterexample for level 0.) -/
theorem game_capacity_spec :
    (∀ (inp : Nat → Nat → Nat) (tcnt : Nat → Nat) (seed level fuel : Nat)
      (w : Bool) (s : List Nat) (n : Nat) (idxs : List Nat),
      1 ≤ level → level ≤ MAX_GAME_LEVEL →
      single_game inp tcnt seed level fuel = some (w, s, n, idxs) →
      ∀ i ∈ idxs, i < MAX_GAME_LEVEL)
    ∧ (∀ combo level, wait_start_level combo level = level ∨
        wait_start_level combo level ≤ 25)
    ∧ reachable_level 65
    ∧ single_game (perfect_inp (fun _ => 0) 0) (fun _ => 0) 0 65 65 =
        some (true, sym_list (fun _ => 0) 0 65, 65, List.range' 0 65)
    ∧ MAX_GAME_LEVEL ∈ List.range' 0 65 := by
  refine ⟨?_, ?_, ?_, ?_, ?_⟩
  · intro inp tcnt seed level fuel w s n idxs hl1 hl64 heq
    exact single_game_go_inbounds inp tcnt level hl1 hl64 fuel seed [] 0 0 []
      (by omega) (by intro i hi; cases hi) w s n idxs heq
  · intro combo level
    simp only [wait_start_level]
    split
    · right; omega
    · split
      · right; omega
      · split
        · right; omega
        · left; rfl
  · have h := reachable_level_25_add 40 (by omega)
    exact h
  · exact single_game_perfect (fun _ => 0) 0 65 (by omega) (by omega)
  · decide

/-- Witness for C8 (amended): a concrete immediately-lost game at level 1
writes only index 0, which is below the capacity. -/
theorem game_capacity_spec_witness :
    ∀ i ∈ ([0] : List Nat), i < MAX_GAME_LEVEL := by
  exact game_capacity_spec.1 (fun _ _ => 0) (fun _ => 0) 0 1 1 false [0] 1 [0]
    (by decide) (by decide) (by decide)

/-- Counterexample for C8 as stated: level 0 is reachable (a win at the
reachable level 255 wraps the `uint8_t` level to 0) and satisfies
`game_level ≤ 64`, yet a perfectly played game at level 0 only ends once the
`uint8_t` position cursor wraps, after 256 appends at indices `0 .. 255` —
so the sequence grows past the capacity even though the level is at most the
capacity. -/
theorem game_capacity_spec_cex :
    reachable_level 0
    ∧ 0 ≤ MAX_GAME_LEVEL
    ∧ single_game (perfect_inp (fun _ => 0) 0) (fun _ => 0) 0 0 256 =
        some (true, sym_list (fun _ => 0) 0 256, 0, List.range' 0 256)
    ∧ MAX_GAME_LEVEL ∈ List.range' 0 256 := by
  refine ⟨?_, by omega, single_game_perfect_level0 (fun _ => 0) 0, by decide⟩
  have h255 : reachable_level 255 := reachable_level_25_add 230 (by omega)
  have h := reachable_level_succ 255 (by omega) (by omega) h255
  simpa using h

end Simon
